import Mathlib

/-!
# Verification of the CCCD-card OCR pipeline core

Shallow embedding of the algorithmic core of the repository
(`src/stages/ocr.py` and `src/stages/crop.py`) together with theorems
settling the specification claims about it.

Conventions of the embedding:
* Python floats are modelled as exact rationals (`ℚ`); the claims settled
  here do not hinge on binary floating-point rounding.
* `numpy` `int32` casts truncate toward zero; this is `truncToward0` below.
* Python dicts are modelled as insertion-ordered association lists.
* The external recognition model (VietOCR) is an oracle parameter; its
  possible behaviours (throwing, returning nothing, returning bare text,
  returning a text/probability pair) are the `RecogOutcome` type.
-/

deriving instance DecidableEq for Except

namespace CCCD

/-- Truncation toward zero, the rounding mode of a `numpy` cast to `int32`
(applied in the source to values that are far below `2^31`, so no wraparound
is modelled). -/
def truncToward0 (x : ℚ) : ℤ :=
  if 0 ≤ x then ⌊x⌋ else ⌈x⌉

/-- An axis-aligned box with rational (float) coordinates, as handed to
`pad_bbox` / `clamp_bbox` in `src/stages/ocr.py`. -/
structure BBoxQ where
  x1 : ℚ
  y1 : ℚ
  x2 : ℚ
  y2 : ℚ
deriving DecidableEq, Repr

/-- An axis-aligned box with integer coordinates, the `np.int32` array
returned by `clamp_bbox`. -/
structure BBoxI where
  x1 : ℤ
  y1 : ℤ
  x2 : ℤ
  y2 : ℤ
deriving DecidableEq, Repr

/-- `clamp_bbox` from `src/stages/ocr.py` (lines 44-54): clamp the four
coordinates into `[0, width-1] x [0, height-1]`, then force `x2`/`y2` one
pixel past `x1`/`y1` (but still at most `width-1`/`height-1`) whenever the
clamped span collapsed; finally cast to `int32`. -/
def clamp_bbox (b : BBoxQ) (width height : ℤ) : BBoxI :=
  let x1 : ℚ := max 0 (min b.x1 ((width : ℚ) - 1))
  let y1 : ℚ := max 0 (min b.y1 ((height : ℚ) - 1))
  let x2 : ℚ := max 0 (min b.x2 ((width : ℚ) - 1))
  let y2 : ℚ := max 0 (min b.y2 ((height : ℚ) - 1))
  let x2 : ℚ := if x2 ≤ x1 then min ((width : ℚ) - 1) (x1 + 1) else x2
  let y2 : ℚ := if y2 ≤ y1 then min ((height : ℚ) - 1) (y1 + 1) else y2
  ⟨truncToward0 x1, truncToward0 y1, truncToward0 x2, truncToward0 y2⟩

/-- `pad_bbox` from `src/stages/ocr.py` (lines 57-67): expand each side by
`pad_ratio` of the box's own width/height (default `0.04`), then clamp via
`clamp_bbox`. -/
def pad_bbox (b : BBoxQ) (width height : ℤ) (pad_ratio : ℚ := 4/100) : BBoxI :=
  let w := b.x2 - b.x1
  let h := b.y2 - b.y1
  clamp_bbox ⟨b.x1 - w * pad_ratio, b.y1 - h * pad_ratio,
              b.x2 + w * pad_ratio, b.y2 + h * pad_ratio⟩ width height

/-! ## Corner ordering (`src/stages/crop.py`, `_order_corners_robust`) -/

/-- A point in image pixel space. -/
abbrev Pt := ℚ × ℚ

/-- First element of `p :: rest` attaining the minimal key `f`; this is
`np.argmin` (which returns the first index of the minimum) followed by
indexing. -/
def firstMinBy (f : Pt → ℚ) (p : Pt) (rest : List Pt) : Pt :=
  rest.foldl (fun b y => if f y < f b then y else b) p

/-- First element of `p :: rest` attaining the maximal key `f`; this is
`np.argmax` followed by indexing. -/
def firstMaxBy (f : Pt → ℚ) (p : Pt) (rest : List Pt) : Pt :=
  rest.foldl (fun b y => if f b < f y then y else b) p

/-- The sum key `s = x + y` used by `_order_corners_robust`. -/
def sumXY (p : Pt) : ℚ := p.1 + p.2

/-- The key produced by `np.diff(pts, axis=1)` in `_order_corners_robust`:
for a row `[x, y]`, `np.diff` yields `y - x`. -/
def diffYX (p : Pt) : ℚ := p.2 - p.1

/-- The key `d = x - y` in the spec's wording of the ordering algorithm. -/
def diffXY (p : Pt) : ℚ := p.1 - p.2

/-- `_order_corners_robust` from `src/stages/crop.py` (lines 27-41): order 4
points as `[tl, tr, br, bl]`; raises `ValueError` (modelled as `.error`) for
inputs of size other than 4.  `tl` is `argmin` of the coordinate sums, `br`
the `argmax` of the sums, `tr` the `argmin` of `np.diff` (= `y - x`), `bl`
the `argmax` of `np.diff`. -/
def _order_corners_robust : List Pt → Except String (List Pt)
  | [p0, p1, p2, p3] =>
    .ok [firstMinBy sumXY p0 [p1, p2, p3],
         firstMinBy diffYX p0 [p1, p2, p3],
         firstMaxBy sumXY p0 [p1, p2, p3],
         firstMaxBy diffYX p0 [p1, p2, p3]]
  | _ => .error "points must contain exactly 4 elements"

/-- `orderCorners` as the spec words it (claim C2): with `d = x - y`,
top-left = argmin of `s`, top-right = argmin of `d`, bottom-right = argmax
of `s`, bottom-left = argmax of `d`, the result listed in the order
`[tl, tr, br, bl]`. -/
def orderCornersSpecWorded : List Pt → Except String (List Pt)
  | [p0, p1, p2, p3] =>
    .ok [firstMinBy sumXY p0 [p1, p2, p3],
         firstMinBy diffXY p0 [p1, p2, p3],
         firstMaxBy sumXY p0 [p1, p2, p3],
         firstMaxBy diffXY p0 [p1, p2, p3]]
  | _ => .error "points must contain exactly 4 elements"

/-- The amended wording of the ordering algorithm: with `d = x - y`,
top-right is the argmax of `d` and bottom-left the argmin of `d` (the
claim had these two swapped). -/
def orderCornersSpecAmended : List Pt → Except String (List Pt)
  | [p0, p1, p2, p3] =>
    .ok [firstMinBy sumXY p0 [p1, p2, p3],
         firstMaxBy diffXY p0 [p1, p2, p3],
         firstMaxBy sumXY p0 [p1, p2, p3],
         firstMinBy diffXY p0 [p1, p2, p3]]
  | _ => .error "points must contain exactly 4 elements"

theorem firstMinBy_diffYX_eq_firstMaxBy_diffXY (p : Pt) (rest : List Pt) :
    firstMinBy diffYX p rest = firstMaxBy diffXY p rest := by
  unfold firstMinBy firstMaxBy
  induction rest generalizing p with
  | nil => rfl
  | cons q rest ih =>
    simp only [List.foldl_cons]
    by_cases h : diffXY p < diffXY q
    · have h2 : diffYX q < diffYX p := by
        unfold diffYX
        unfold diffXY at h
        linarith
      rw [if_pos h2, if_pos h, ih]
    · have h2 : ¬ diffYX q < diffYX p := by
        unfold diffYX
        unfold diffXY at h
        intro hc
        exact h (by linarith)
      rw [if_neg h2, if_neg h, ih]

theorem firstMaxBy_diffYX_eq_firstMinBy_diffXY (p : Pt) (rest : List Pt) :
    firstMaxBy diffYX p rest = firstMinBy diffXY p rest := by
  unfold firstMinBy firstMaxBy
  induction rest generalizing p with
  | nil => rfl
  | cons q rest ih =>
    simp only [List.foldl_cons]
    by_cases h : diffXY q < diffXY p
    · have h2 : diffYX p < diffYX q := by
        unfold diffYX
        unfold diffXY at h
        linarith
      rw [if_pos h2, if_pos h, ih]
    · have h2 : ¬ diffYX p < diffYX q := by
        unfold diffYX
        unfold diffXY at h
        intro hc
        exact h (by linarith)
      rw [if_neg h2, if_neg h, ih]

/-! ## Field extraction and aggregation (`src/stages/ocr.py`, `run`) -/

/-- The fixed field schema `DESIRED_FIELDS` (lines 24-34). -/
def DESIRED_FIELDS : List String :=
  ["id", "name", "dob", "gender", "nationality", "origin_place",
   "current_place", "expire_date", "issue_date"]

/-- `MULTILINE_FIELDS` (lines 37-41): fields merged across stacked boxes. -/
def MULTILINE_FIELDS : List String := ["name", "origin_place", "current_place"]

/-- The possible behaviours of one `ocr.predict` call on a cropped line
image: raise an exception, return `None`, return a bare text, or return a
`(text, probability)` tuple. -/
inductive RecogOutcome where
  | throws
  | nothing
  | bare (s : String)
  | pair (s : String) (c : ℚ)
deriving DecidableEq

/-- `estimate_confidence` (lines 109-139): the deterministic heuristic
fallback confidence.  Python's unicode-aware `isdigit`/`isalpha` are
modelled by the ASCII predicates; all labels and texts used in this file
are ASCII. -/
def estimate_confidence (text : String) : ℚ :=
  if text = "" ∨ text.trim.length = 0 then 0
  else
    let n := text.length
    let spaces := text.toList.count ' '
    let c : ℚ := 1/2
    let c := if text.toList.any Char.isDigit then c + 1/10 else c
    let c := if text.toList.any Char.isAlpha then c + 1/10 else c
    let c := if 3 < n then c + 1/10 else c
    let c := if ¬ (text.toList.any fun ch =>
        ch ∈ ['?', '!', '@', '#', '$', '%']) then c + 1/10 else c
    let c := if spaces ≤ n / 4 then c + 1/10 else c
    let c := if 0 < text.toList.count '?' then c - 2/10 else c
    let c := if n < 2 then c - 2/10 else c
    let c := if n / 2 < spaces then c - 1/10 else c
    max 0 (min 1 c)

/-- `predict_with_confidence` (lines 90-106): unpack a tuple result, fall
back to `estimate_confidence` for a bare result, and recover from any
exception with `("", 0.0)`.  A `None` result is unpacked to a `None` text,
which every downstream use treats exactly like `""` (both are falsy), so it
is modelled as `("", 0.0)` as well (`estimate_confidence` returns `0.0` for
falsy input). -/
def predict_with_confidence : RecogOutcome → String × ℚ
  | .throws => ("", 0)
  | .nothing => ("", 0)
  | .bare s => (s, estimate_confidence s)
  | .pair s c => (s, c)

/-- Replace the locally-recovered recognition outcomes (exception, `None`)
by an explicit empty-text/zero-confidence success. -/
def recover : RecogOutcome → RecogOutcome
  | .throws => .pair "" 0
  | .nothing => .pair "" 0
  | .bare s => .bare s
  | .pair s c => .pair s c

/-- One labeled detection box from the YOLO field detector, after the class
id has been mapped to its label string. -/
structure FieldDet where
  label : String
  conf : ℚ
  box : BBoxQ
deriving DecidableEq, Repr

/-- The per-label state of `run`: the four dicts `field_to_bboxes`,
`field_to_text`, `field_to_confidence` and `field_to_ocr_confidence` always
hold exactly the same keys (they are initialized together from
`DESIRED_FIELDS` and extended together for out-of-schema labels), so they
are modelled as one insertion-ordered map to this record. -/
structure FieldEntry where
  bboxes : List (BBoxI × ℚ)
  text : String
  conf : ℚ
  ocr_conf : ℚ
deriving DecidableEq, Repr

/-- The initial entry: no boxes, empty text, zero confidences. -/
def FieldEntry.empty : FieldEntry := ⟨[], "", 0, 0⟩

/-- The insertion-ordered map modelling the Python dicts of `run`. -/
abbrev FieldMap := List (String × FieldEntry)

/-- Dict lookup. -/
def findVal {α : Type} : List (String × α) → String → Option α
  | [], _ => none
  | (k0, v) :: rest, k => if k0 = k then some v else findVal rest k

/-- Dict assignment: update in place, preserving insertion order, appending
a missing key at the end (Python dict semantics). -/
def setEntry : FieldMap → String → FieldEntry → FieldMap
  | [], k, e => [(k, e)]
  | (k0, v) :: rest, k, e =>
    if k0 = k then (k, e) :: rest else (k0, v) :: setEntry rest k e

/-- The dicts as initialized at lines 157-160: all schema fields present
and empty. -/
def initFields : FieldMap := DESIRED_FIELDS.map (fun k => (k, FieldEntry.empty))

/-- One iteration of the detection loop of `run` (lines 163-186): register
the label (also out-of-schema ones), skip boxes at or below the confidence
threshold, pad the box, then append it (multi-line label) or keep only the
highest-confidence box so far (single-line label, recording its score in
`field_to_confidence`). -/
def collectBox (width height : ℤ) (thr : ℚ) (m : FieldMap) (d : FieldDet) :
    FieldMap :=
  let m1 := if (findVal m d.label).isSome then m
            else m ++ [(d.label, FieldEntry.empty)]
  if d.conf ≤ thr then m1
  else
    let e := (findVal m1 d.label).getD FieldEntry.empty
    let padded := pad_bbox d.box width height
    if d.label ∈ MULTILINE_FIELDS then
      setEntry m1 d.label { e with bboxes := e.bboxes ++ [(padded, d.conf)] }
    else
      match e.bboxes with
      | [] => setEntry m1 d.label
          { e with bboxes := [(padded, d.conf)], conf := d.conf }
      | (_, c0) :: _ =>
        if c0 < d.conf then
          setEntry m1 d.label
            { e with bboxes := [(padded, d.conf)], conf := d.conf }
        else m1

/-- The whole detection loop of `run`. -/
def collectBoxes (width height : ℤ) (thr : ℚ) (dets : List FieldDet) :
    FieldMap :=
  dets.foldl (collectBox width height thr) initFields

/-- The recognition loop body (lines 198-222): texts, detection scores and
recognition confidences are appended only when the recognized text is
non-empty. -/
def appendRecog (predict : BBoxI → String × ℚ)
    (acc : List String × List ℚ × List ℚ) (it : BBoxI × ℚ) :
    List String × List ℚ × List ℚ :=
  let r := predict it.1
  if r.1 ≠ "" then (acc.1 ++ [r.1], acc.2.1 ++ [it.2], acc.2.2 ++ [r.2])
  else acc

/-- Line 193: `sorted(bbox_items, key=lambda item: item[0][1])` — a stable
sort of the retained boxes by the padded box's top-edge `y1`. -/
def sortedByTop (items : List (BBoxI × ℚ)) : List (BBoxI × ℚ) :=
  items.insertionSort (fun a b => a.1.y1 ≤ b.1.y1)

/-- One iteration of the per-field loop of `run` (lines 189-231): skip empty
fields, sort retained boxes by top edge, recognize each crop (the
grayscale/upscale/contrast preprocessing is deterministic in the padded
box, so the recognition oracle `predict` is keyed by the padded box), join
the non-empty texts with single spaces and strip, then aggregate
confidences (means for multi-line labels, first recognition confidence for
single-line labels). -/
def processEntry (predict : BBoxI → String × ℚ) (label : String)
    (e : FieldEntry) : FieldEntry :=
  if e.bboxes = [] then e
  else
    let acc := (sortedByTop e.bboxes).foldl (appendRecog predict) ([], [], [])
    let texts := acc.1
    let yolo_confidences := acc.2.1
    let ocr_confidences := acc.2.2
    let e1 := { e with text := (String.intercalate " " texts).trim }
    if label ∈ MULTILINE_FIELDS ∧ yolo_confidences ≠ [] then
      { e1 with conf := yolo_confidences.sum / (yolo_confidences.length : ℚ),
                ocr_conf := ocr_confidences.sum / (ocr_confidences.length : ℚ) }
    else if yolo_confidences ≠ [] then
      { e1 with ocr_conf := ocr_confidences.headD 0 }
    else e1

/-- The whole per-field loop of `run`. -/
def processFields (predict : BBoxI → String × ℚ) (m : FieldMap) : FieldMap :=
  m.map (fun kv => (kv.1, processEntry predict kv.1 kv.2))

/-- The JSON payload of `run` (lines 235-239). -/
structure Payload where
  data : List (String × String)
  yolo_confidence : List (String × ℚ)
  ocr_confidence : List (String × ℚ)
deriving DecidableEq, Repr

/-- Python `round(x, 3)`.  On exact midpoints Python's float rounding is
half-to-even while `round` here is half-up; no claim settled in this file
touches an exact midpoint. -/
def round3 (x : ℚ) : ℚ := (round (x * 1000) : ℚ) / 1000

/-- Payload construction (lines 235-239): comprehensions over
`DESIRED_FIELDS` only. -/
def mkPayload (m : FieldMap) : Payload :=
  ⟨DESIRED_FIELDS.map (fun k => (k, ((findVal m k).getD FieldEntry.empty).text)),
   DESIRED_FIELDS.map (fun k =>
     (k, round3 ((findVal m k).getD FieldEntry.empty).conf)),
   DESIRED_FIELDS.map (fun k =>
     (k, round3 ((findVal m k).getD FieldEntry.empty).ocr_conf))⟩

/-- The algorithmic core of `run` (lines 142-245), from the labeled
detections to the output payload.  `recognize` is the external OCR oracle
on padded crops; image decoding, model loading and the JSON file write are
outside the embedding. -/
def run (width height : ℤ) (thr : ℚ) (dets : List FieldDet)
    (recognize : BBoxI → RecogOutcome) : Payload :=
  mkPayload (processFields (fun b => predict_with_confidence (recognize b))
    (collectBoxes width height thr dets))

theorem findVal_setEntry (m : FieldMap) (k j : String) (e : FieldEntry) :
    findVal (setEntry m k e) j = if k = j then some e else findVal m j := by
  induction m with
  | nil => simp [setEntry, findVal]
  | cons kv rest ih =>
    obtain ⟨k0, v⟩ := kv
    by_cases h0 : k0 = k
    · subst h0
      simp only [setEntry, if_pos rfl, findVal]
      by_cases h1 : k0 = j <;> simp [h1, findVal]
    · simp only [setEntry, if_neg h0, findVal]
      by_cases h1 : k0 = j
      · subst h1
        have : ¬ k = k0 := fun h => h0 h.symm
        simp [this]
      · simp [h1, ih]

theorem findVal_append_single (m : FieldMap) (k j : String) (e : FieldEntry) :
    findVal (m ++ [(k, e)]) j =
      match findVal m j with
      | some v => some v
      | none => if k = j then some e else none := by
  induction m with
  | nil => simp [findVal]
  | cons kv rest ih =>
    obtain ⟨k0, v⟩ := kv
    by_cases h0 : k0 = j <;> simp [findVal, h0, ih]

/-- After one iteration of the detection loop, a key is present if it was
present before or if it is the detection's own label. -/
theorem collectBox_findVal_isSome (width height : ℤ) (thr : ℚ) (m : FieldMap)
    (d : FieldDet) (j : String)
    (h : (findVal m j).isSome ∨ j = d.label) :
    (findVal (collectBox width height thr m d) j).isSome := by
  have key : ∀ (m1 : FieldMap), (findVal m1 j).isSome →
      ∀ e, (findVal (setEntry m1 d.label e) j).isSome := by
    intro m1 h1 e
    rw [findVal_setEntry]
    split
    · rfl
    · exact h1
  simp only [collectBox]
  by_cases hm : (findVal m d.label).isSome = true
  · rw [if_pos hm]
    have h1 : (findVal m j).isSome := by
      rcases h with h | rfl
      · exact h
      · exact hm
    split
    · exact h1
    · split
      · exact key m h1 _
      · split
        · exact key m h1 _
        · split
          · exact key m h1 _
          · exact h1
  · rw [if_neg hm]
    have h1 : (findVal (m ++ [(d.label, FieldEntry.empty)]) j).isSome := by
      rw [findVal_append_single]
      rcases h with h | rfl
      · obtain ⟨v, hv⟩ := Option.isSome_iff_exists.mp h
        rw [hv]
        rfl
      · have hnone : findVal m d.label = none := by
          cases hv : findVal m d.label
          · rfl
          · exact absurd (by rw [hv]; rfl) hm
        rw [hnone, if_pos rfl]
        rfl
    split
    · exact h1
    · split
      · exact key _ h1 _
      · split
        · exact key _ h1 _
        · split
          · exact key _ h1 _
          · exact h1

/-- Every label of every detection gets an entry in the maps built by the
detection loop, regardless of threshold or schema membership. -/
theorem collectBoxes_fold_isSome (width height : ℤ) (thr : ℚ)
    (dets : List FieldDet) (m : FieldMap) (j : String)
    (h : (findVal m j).isSome ∨ ∃ d ∈ dets, j = d.label) :
    (findVal (dets.foldl (collectBox width height thr) m) j).isSome := by
  induction dets generalizing m with
  | nil =>
    rcases h with h | ⟨d, hd, _⟩
    · exact h
    · exact absurd hd (List.not_mem_nil d)
  | cons d0 rest ih =>
    rw [List.foldl_cons]
    apply ih
    rcases h with h | ⟨d2, hd2, rfl⟩
    · exact Or.inl (collectBox_findVal_isSome width height thr m d0 j (Or.inl h))
    · rcases List.mem_cons.mp hd2 with heq | hmem
      · exact Or.inl (collectBox_findVal_isSome width height thr m d0 d2.label
          (Or.inr (by rw [heq])))
      · exact Or.inr ⟨d2, hmem, rfl⟩

/-- Mapping a key-preserving function over a list of keys keeps the key
column unchanged. -/
theorem map_fst_map_pair {α : Type} (l : List String) (f : String → α) :
    (l.map (fun k => (k, f k))).map Prod.fst = l := by
  induction l with
  | nil => rfl
  | cons x xs ih => simp [ih]

/-- A single out-of-schema detection for claim C3, with a recognizer that
reads its crop as "hello". -/
def detsC3 : List FieldDet := [⟨"extra", 9/10, ⟨10, 10, 50, 30⟩⟩]

/-- The recognition oracle for claim C3. -/
def recogC3 : BBoxI → RecogOutcome := fun _ => .pair "hello" (9/10)

/-- The recognition loop in closed form: folding `appendRecog` collects, in
order, the texts, detection scores and recognition confidences of exactly
the boxes whose recognized text is non-empty. -/
theorem appendRecog_foldl (predict : BBoxI → String × ℚ)
    (l : List (BBoxI × ℚ)) (acc : List String × List ℚ × List ℚ) :
    l.foldl (appendRecog predict) acc =
      (acc.1 ++ (l.filter fun it => (predict it.1).1 ≠ "").map
          (fun it => (predict it.1).1),
       acc.2.1 ++ (l.filter fun it => (predict it.1).1 ≠ "").map Prod.snd,
       acc.2.2 ++ (l.filter fun it => (predict it.1).1 ≠ "").map
          (fun it => (predict it.1).2)) := by
  induction l generalizing acc with
  | nil => simp
  | cons x xs ih =>
    simp only [List.foldl_cons, appendRecog, List.filter_cons]
    by_cases hx : (predict x.1).1 ≠ ""
    · rw [if_pos hx, ih]
      simp [hx]
    · rw [if_neg hx, ih]
      simp [hx]

/-- The boxes that contribute to a field's aggregates: the retained boxes,
in reading order, whose recognized text is non-empty. -/
def contributing (predict : BBoxI → String × ℚ) (items : List (BBoxI × ℚ)) :
    List (BBoxI × ℚ) :=
  (sortedByTop items).filter fun it => (predict it.1).1 ≠ ""

/-- Two same-label multi-line detections for claim C4; the higher-scored
box recognizes to an empty text. -/
def detsC4 : List FieldDet :=
  [⟨"name", 5/10, ⟨0, 0, 100, 20⟩⟩, ⟨"name", 9/10, ⟨0, 40, 100, 60⟩⟩]

/-- The recognition oracle for claim C4: the top box reads "A", the bottom
box reads nothing. -/
def recogC4 : BBoxI → RecogOutcome :=
  fun b => if b.y1 = 0 then .pair "A" (8/10) else .pair "" (9/10)

/-- The padded retained boxes of `detsC4`, as stored by the detection loop. -/
def itemsC4 : List (BBoxI × ℚ) := [(⟨0, 0, 104, 20⟩, 5/10), (⟨0, 39, 104, 60⟩, 9/10)]

/-- `recogC4` composed with the recovery of `predict_with_confidence`. -/
def predictC4 : BBoxI → String × ℚ := fun b => predict_with_confidence (recogC4 b)

/-- When the top-edge keys of the retained boxes are pairwise distinct, the
stable sort by top edge is determined by the multiset of boxes alone:
permuted inputs sort to the same list. -/
theorem sortedByTop_eq_of_perm_of_distinct (l1 l2 : List (BBoxI × ℚ))
    (hp : l1.Perm l2)
    (hd : (l1.map fun it => it.1.y1).Pairwise (fun a b => a ≠ b)) :
    sortedByTop l1 = sortedByTop l2 := by
  haveI ht : IsTotal (BBoxI × ℚ) (fun a b => a.1.y1 ≤ b.1.y1) :=
    ⟨fun a b => le_total _ _⟩
  haveI htr : IsTrans (BBoxI × ℚ) (fun a b => a.1.y1 ≤ b.1.y1) :=
    ⟨fun _ _ _ h1 h2 => le_trans h1 h2⟩
  haveI : IsAntisymm (BBoxI × ℚ) (fun a b => a.1.y1 < b.1.y1) :=
    ⟨fun a _ h1 h2 => absurd (lt_trans h1 h2) (lt_irrefl a.1.y1)⟩
  have hsym : ∀ {a b : BBoxI × ℚ}, a.1.y1 ≠ b.1.y1 → b.1.y1 ≠ a.1.y1 :=
    fun h => Ne.symm h
  have hs1 : (sortedByTop l1).Sorted (fun a b => a.1.y1 ≤ b.1.y1) :=
    List.sorted_insertionSort _ l1
  have hs2 : (sortedByTop l2).Sorted (fun a b => a.1.y1 ≤ b.1.y1) :=
    List.sorted_insertionSort _ l2
  have hperm12 : (sortedByTop l1).Perm (sortedByTop l2) :=
    (List.perm_insertionSort _ l1).trans
      (hp.trans (List.perm_insertionSort _ l2).symm)
  have hd1 : l1.Pairwise (fun a b => a.1.y1 ≠ b.1.y1) := List.pairwise_map.mp hd
  have hd1s : (sortedByTop l1).Pairwise (fun a b => a.1.y1 ≠ b.1.y1) :=
    ((List.perm_insertionSort _ l1).pairwise_iff hsym).mpr hd1
  have hd2s : (sortedByTop l2).Pairwise (fun a b => a.1.y1 ≠ b.1.y1) :=
    (hperm12.pairwise_iff hsym).mp hd1s
  have hlt1 : (sortedByTop l1).Pairwise (fun a b => a.1.y1 < b.1.y1) :=
    (hs1.and hd1s).imp fun h => lt_of_le_of_ne h.1 h.2
  have hlt2 : (sortedByTop l2).Pairwise (fun a b => a.1.y1 < b.1.y1) :=
    (hs2.and hd2s).imp fun h => lt_of_le_of_ne h.1 h.2
  exact List.eq_of_perm_of_sorted hperm12 hlt1 hlt2

/-- Two same-label multi-line detections for claim C7 whose padded boxes
share the top-edge coordinate `y1 = 0`. -/
def detsC7 : List FieldDet :=
  [⟨"name", 5/10, ⟨0, 0, 100, 20⟩⟩, ⟨"name", 5/10, ⟨10, 0, 90, 20⟩⟩]

/-- The same two detections in the opposite detection order. -/
def detsC7swapped : List FieldDet :=
  [⟨"name", 5/10, ⟨10, 0, 90, 20⟩⟩, ⟨"name", 5/10, ⟨0, 0, 100, 20⟩⟩]

/-- The recognition oracle for claim C7's counterexample: the wide box
reads "A", the narrow box reads "B". -/
def recogC7 : BBoxI → RecogOutcome :=
  fun b => if b.x1 = 0 then .pair "A" (5/10) else .pair "B" (5/10)

/-- A recognizer for the claim's reading-order example: the box with top
edge 10 reads "T10", the other "T50". -/
def predictC7ex : BBoxI → String × ℚ :=
  fun b => if b.y1 = 10 then ("T10", 1) else ("T50", 1)

/-! ## Corner detection and rectification (`src/stages/crop.py`) -/

/-- The corner label set recognized by `detect_points` (line 222). -/
def cornerNames : List String :=
  ["tren-trai", "tren-phai", "duoi-trai", "duoi-phai",
   "top-left", "top-right", "bottom-left", "bottom-right"]

/-- The emblem label set recognized by `detect_points` (line 224). -/
def emblemNames : List String := ["quoc-huy", "quoc_huy", "huy-hieu", "emblem"]

/-- `_normalize_label` (lines 201-202). -/
def _normalize_label (name : String) : String :=
  (name.toLower.replace " " "-").replace "_" "-"

/-- One labeled detection box from the YOLO corner detector, after the
class id has been mapped to its label string. -/
structure CornerDet where
  name : String
  conf : ℚ
  box : BBoxQ
deriving DecidableEq, Repr

/-- `_center_of_box` (lines 22-24). -/
def _center_of_box (b : BBoxQ) : Pt := ((b.x1 + b.x2) / 2, (b.y1 + b.y2) / 2)

/-- One iteration of the `detect_points` loop (lines 213-225): skip boxes
below the threshold, collect corner-labeled centers with their confidence,
remember the last emblem-labeled center. -/
def detectStep (conf_thres : ℚ) (acc : Option Pt × List (Pt × ℚ))
    (d : CornerDet) : Option Pt × List (Pt × ℚ) :=
  if d.conf < conf_thres then acc
  else
    let name := _normalize_label d.name
    let center := _center_of_box d.box
    if name ∈ cornerNames then (acc.1, acc.2 ++ [(center, d.conf)])
    else if name ∈ emblemNames then (some center, acc.2)
    else acc

/-- Line 230: `corners.sort(key=lambda x: x[1], reverse=True)` — a stable
sort by confidence, descending. -/
def sortByConfDesc (corners : List (Pt × ℚ)) : List (Pt × ℚ) :=
  corners.insertionSort (fun a b => b.2 ≤ a.2)

/-- `detect_points` (lines 205-237): collect the emblem center and the
corner centers above the threshold; if more than 4 corners, keep the 4 of
highest confidence; return centers only. -/
def detect_points (dets : List CornerDet) (conf_thres : ℚ) :
    Option Pt × List Pt :=
  let acc := dets.foldl (detectStep conf_thres) (none, [])
  let corners := if 4 < acc.2.length then (sortByConfDesc acc.2).take 4
                 else acc.2
  (acc.1, corners.map Prod.fst)

/-- Squared euclidean distance between two points.  `np.hypot` is strictly
monotone in the squared distance, so maximizing the squared distance picks
the same pair as maximizing `np.hypot`, ties included. -/
def dist2 (p q : Pt) : ℚ := (p.1 - q.1) ^ 2 + (p.2 - q.2) ^ 2

/-- The three detected corners as an indexed family. -/
def tri (p0 p1 p2 : Pt) : Fin 3 → Pt
  | 0 => p0
  | 1 => p1
  | 2 => p2

/-- `max(dists, key=lambda x: x[2])` over the pair list
`[(0,1), (0,2), (1,2)]` (line 287-288): Python's `max` keeps the current
best unless a later element is strictly greater, so ties pick the earliest
pair. -/
def longestPair (d01 d02 d12 : ℚ) : Fin 3 × Fin 3 :=
  let b1 := if d01 < d02 then ((0 : Fin 3), (2 : Fin 3), d02)
            else ((0 : Fin 3), (1 : Fin 3), d01)
  if b1.2.2 < d12 then ((1 : Fin 3), (2 : Fin 3)) else (b1.1, b1.2.1)

/-- `{0, 1, 2}.difference({i, j}).pop()` for distinct `i, j` (line 289). -/
def thirdIdx (i j : Fin 3) : Fin 3 :=
  ⟨(3 - i.val - j.val) % 3, Nat.mod_lt _ (by norm_num)⟩

/-- The 4th-corner synthesis of `crop_cccd` (lines 285-291): take the pair
`(i, j)` of maximal pairwise distance among the three corners, let `k` be
the remaining index, and return `pts[i] + pts[j] - pts[k]`. -/
def complete4th (p0 p1 p2 : Pt) : Pt :=
  let pts := tri p0 p1 p2
  let ij := longestPair (dist2 p0 p1) (dist2 p0 p2) (dist2 p1 p2)
  let k := thirdIdx ij.1 ij.2
  ((pts ij.1).1 + (pts ij.2).1 - (pts k).1,
   (pts ij.1).2 + (pts ij.2).2 - (pts k).2)

/-- `_inflate_quad` (lines 161-175): scale each point away from the
centroid by `1 + expand` and clip into `[0, w-1] x [0, h-1]`; a no-op for
`expand ≤ 0`. -/
def _inflate_quad (points : List Pt) (expand : ℚ) (w h : ℚ) : List Pt :=
  if expand ≤ 0 then points
  else
    let cx := (points.map Prod.fst).sum / 4
    let cy := (points.map Prod.snd).sum / 4
    let scale := 1 + expand
    points.map fun p =>
      (max 0 (min (cx + (p.1 - cx) * scale) (w - 1)),
       max 0 (min (cy + (p.2 - cy) * scale) (h - 1)))

/-- The post-detection geometry of `crop_cccd` (lines 279-298) up to the
input of the perspective warp: the corner-count gate (`return None` below
3 corners), the 4th-corner completion, the ordering and the inflation.
A raised exception is `.error`, the "no result" return is `.ok none`.  The
warp itself (whose output size involves `np.hypot` square roots) and the
later deskew/orientation steps are modelled separately
(`deskewTopEdgeStep`, `rotate_to_place_point_top_left`). -/
def crop_core (dets : List CornerDet) (conf_thres expand imgW imgH : ℚ) :
    Except String (Option (List Pt)) :=
  let ec := detect_points dets conf_thres
  let corners := ec.2
  if corners.length < 3 then .ok none
  else
    let corners := if corners.length = 3 then
        match corners with
        | [p0, p1, p2] => corners ++ [complete4th p0 p1 p2]
        | _ => corners
      else corners
    match _order_corners_robust corners with
    | .ok ordered => .ok (some (_inflate_quad ordered expand imgW imgH))
    | .error e => .error e

/-- The residual top-edge deskew angle of `crop_cccd` (lines 300-305): the
corners are hardcoded to `tl = (0,0)` and `tr = (w-1, 0)` of the warped
image itself, so `dy = 0` and `dx = w - 1`, and
`math.degrees(math.atan2(0, dx))` is `0` for `dx ≥ 0` and `180` for
`dx < 0`. -/
def deskewAngle (w : ℕ) : ℚ :=
  if (w : ℤ) - 1 < 0 then 180 else 0

/-- The deskew step of `crop_cccd` (lines 300-312) on an abstract warped
image: rotate by the computed angle only when it exceeds `0.3` degrees in
absolute value. -/
def deskewTopEdgeStep {α : Type} (rotate : ℚ → α → α) (w : ℕ) (img : α) : α :=
  if 3/10 < |deskewAngle w| then rotate (deskewAngle w) img else img

/-- The quadrant test of `_rotate_to_place_point_top_left` (lines 135-136):
is the point in the top-left quadrant of a `width x height` frame. -/
def quadrant (px py width height : ℚ) : Bool :=
  decide (px < width / 2 ∧ py < height / 2)

/-- `_rotate_to_place_point_top_left` (lines 129-158) on an abstract image
with abstract 90°-CW / 180° / 270°-CW rotations: with no landmark the image
is returned unchanged; otherwise the first of the 0°, 90°-CW and 180°
candidates whose projected landmark lands in the top-left quadrant is
returned; if none does, the 270°-CW rotation is returned unconditionally —
the source computes that candidate's coordinates `(x3, y3) = (y, w - x)`
but never tests them. -/
def rotate_to_place_point_top_left {α : Type}
    (rot90cw rot180 rot270cw : α → α) (image : α) (w h : ℚ)
    (point : Option Pt) : α :=
  match point with
  | none => image
  | some (x, y) =>
    if quadrant x y w h then image
    else if quadrant (h - y) x h w then rot90cw image
    else if quadrant (w - x) (h - y) w h then rot180 image
    else rot270cw image

theorem dist2_nonneg (p q : Pt) : 0 ≤ dist2 p q := by
  unfold dist2
  positivity

theorem dist2_comm (p q : Pt) : dist2 p q = dist2 q p := by
  unfold dist2
  ring

theorem dist2_self (p : Pt) : dist2 p p = 0 := by
  unfold dist2
  ring

theorem tri_cases (p0 p1 p2 : Pt) (a : Fin 3) :
    tri p0 p1 p2 a = p0 ∨ tri p0 p1 p2 a = p1 ∨ tri p0 p1 p2 a = p2 := by
  fin_cases a
  · exact Or.inl rfl
  · exact Or.inr (Or.inl rfl)
  · exact Or.inr (Or.inr rfl)

/-- The corner detections a box of `detect_points` survives as: confidence
at or above the threshold (the code skips `conf < conf_thres`) and a
corner label after normalization. -/
def passesAsCorner (conf_thres : ℚ) (d : CornerDet) : Prop :=
  conf_thres ≤ d.conf ∧ _normalize_label d.name ∈ cornerNames

instance (conf_thres : ℚ) (d : CornerDet) :
    Decidable (passesAsCorner conf_thres d) := by
  unfold passesAsCorner
  infer_instance

/-- The `detect_points` loop in closed form: the collected corner list is
the centers (with confidences) of exactly the corner-labeled detections at
or above the threshold, in detection order. -/
theorem detectStep_foldl (conf_thres : ℚ) (dets : List CornerDet)
    (acc : Option Pt × List (Pt × ℚ)) :
    (dets.foldl (detectStep conf_thres) acc).2 =
      acc.2 ++ (dets.filter (passesAsCorner conf_thres)).map
        (fun d => (_center_of_box d.box, d.conf)) := by
  induction dets generalizing acc with
  | nil => simp
  | cons d rest ih =>
    simp only [List.foldl_cons, List.filter_cons, detectStep]
    by_cases h1 : d.conf < conf_thres
    · rw [if_pos h1, ih]
      have hnp : ¬ passesAsCorner conf_thres d :=
        fun hc => absurd hc.1 (not_le.mpr h1)
      simp [hnp]
    · rw [if_neg h1]
      by_cases h2 : _normalize_label d.name ∈ cornerNames
      · rw [if_pos h2, ih]
        have hp : passesAsCorner conf_thres d := ⟨not_lt.mp h1, h2⟩
        simp [hp]
      · rw [if_neg h2]
        have hnp : ¬ passesAsCorner conf_thres d := fun hc => h2 hc.2
        by_cases h3 : _normalize_label d.name ∈ emblemNames
        · rw [if_pos h3, ih]
          simp [hnp]
        · rw [if_neg h3, ih]
          simp [hnp]

/-- `detect_points` returns at most 4 corner centers. -/
theorem detect_points_corners_le_four (dets : List CornerDet)
    (conf_thres : ℚ) : (detect_points dets conf_thres).2.length ≤ 4 := by
  simp only [detect_points, List.length_map]
  split
  · rw [List.length_take]
    exact min_le_left 4 _
  · omega

/-- The number of corner centers `detect_points` returns equals the number
of passing corner detections, as long as that number does not exceed 4. -/
theorem detect_points_corners_length (dets : List CornerDet)
    (conf_thres : ℚ)
    (h : (dets.filter (passesAsCorner conf_thres)).length ≤ 4) :
    (detect_points dets conf_thres).2.length =
      (dets.filter (passesAsCorner conf_thres)).length := by
  have hacc : (dets.foldl (detectStep conf_thres) (none, [])).2 =
      (dets.filter (passesAsCorner conf_thres)).map
        (fun d => (_center_of_box d.box, d.conf)) := by
    rw [detectStep_foldl]
    simp
  simp only [detect_points, hacc, List.length_map]
  rw [if_neg (by omega)]
  rw [List.length_map]

end CCCD

open CCCD

/-- C1: the claim states that for every input box and image bounds with
width ≥ 1 and height ≥ 1, the box returned by `pad_bbox` (which ends in
`clamp_bbox`) satisfies `x2 > x1` and `y2 > y1`, including for boxes that
touch or lie outside the image boundary.  The code violates this: (a) a box
entirely beyond the right/bottom boundary clamps both coordinates to
`width-1`, and the repair `x2 = min(width-1, x1+1)` cannot move `x2` past
`x1` there; (b) the repair runs before the `int32` truncation, so a
sub-pixel box collapses to an empty span after truncation; (c) with
`width = height = 1` the repair is capped at `0` and collapses as well. -/
theorem C1_padAndClampBox_collapses :
    pad_bbox ⟨150, 150, 160, 160⟩ 100 100 = ⟨99, 99, 99, 99⟩ ∧
    ¬ (pad_bbox ⟨150, 150, 160, 160⟩ 100 100).x1 <
        (pad_bbox ⟨150, 150, 160, 160⟩ 100 100).x2 ∧
    pad_bbox ⟨1/2, 1/2, 9/10, 9/10⟩ 100 100 = ⟨0, 0, 0, 0⟩ ∧
    pad_bbox ⟨0, 0, 5, 5⟩ 1 1 = ⟨0, 0, 0, 0⟩ := by
  refine ⟨?_, ?_, ?_, ?_⟩ <;> with_unfolding_all decide

/-- C2 counterexample: on the axis-aligned square `(0,0),(10,0),(10,10),
(0,10)` the code returns the geometrically correct order
`[(0,0),(10,0),(10,10),(0,10)]`, but the formula the claim states (with
`d = x - y`: top-right = argmin of `d`, bottom-left = argmax of `d`)
returns `[(0,0),(0,10),(10,10),(10,0)]` — its "top-right" `(0,10)` is the
bottom-left corner.  The claim's formula disagrees with the code. -/
theorem C2_orderCorners_spec_formula_disagrees :
    _order_corners_robust [(0, 0), (10, 0), (10, 10), (0, 10)] =
      .ok [(0, 0), (10, 0), (10, 10), (0, 10)] ∧
    orderCornersSpecWorded [(0, 0), (10, 0), (10, 10), (0, 10)] =
      .ok [(0, 0), (0, 10), (10, 10), (10, 0)] ∧
    orderCornersSpecWorded [(0, 0), (10, 0), (10, 10), (0, 10)] ≠
      _order_corners_robust [(0, 0), (10, 0), (10, 10), (0, 10)] := by
  refine ⟨?_, ?_, ?_⟩ <;> with_unfolding_all decide

/-- C2 (amended): for every list of exactly 4 points, `_order_corners_robust`
returns `[tl, tr, br, bl]` where, with `s = x + y` and `d = x - y` per
point, `tl` is the (first) point of minimum `s`, `br` the point of maximum
`s`, `tr` the point of **maximum** `d`, and `bl` the point of **minimum**
`d` (the claim said minimum/maximum of `d` respectively, which is swapped);
and for inputs of size other than 4 it fails with an invalid-input error. -/
theorem C2_orderCorners_amended (points : List Pt) :
    (points.length = 4 →
      _order_corners_robust points = orderCornersSpecAmended points) ∧
    (points.length ≠ 4 →
      _order_corners_robust points =
        .error "points must contain exactly 4 elements") := by
  constructor
  · intro h4
    match points, h4 with
    | [p0, p1, p2, p3], _ =>
      simp only [_order_corners_robust, orderCornersSpecAmended,
        firstMinBy_diffYX_eq_firstMaxBy_diffXY,
        firstMaxBy_diffYX_eq_firstMinBy_diffXY]
  · intro hne
    match points with
    | [] => rfl
    | [_] => rfl
    | [_, _] => rfl
    | [_, _, _] => rfl
    | [_, _, _, _] => exact absurd rfl hne
    | _ :: _ :: _ :: _ :: _ :: _ => rfl

/-- C2 witness: both branches of the amended theorem instantiated on
concrete inputs. -/
theorem C2_orderCorners_amended_witness :
    _order_corners_robust [(0, 0), (10, 0), (10, 10), (0, 10)] =
      orderCornersSpecAmended [(0, 0), (10, 0), (10, 10), (0, 10)] ∧
    _order_corners_robust [(1, 1)] =
      .error "points must contain exactly 4 elements" :=
  ⟨(C2_orderCorners_amended [(0, 0), (10, 0), (10, 10), (0, 10)]).1 rfl,
   (C2_orderCorners_amended [(1, 1)]).2 (by decide)⟩

/-- C3 counterexample: the out-of-schema label "extra" is encountered (an
entry is created and its text "hello" and confidences are computed in the
internal field maps), yet the produced payload contains no "extra" key in
any of its three sections — extra labels are dropped at payload
construction, contradicting the claim that their text and confidences
appear in the produced result. -/
theorem C3_extraLabel_absent_from_payload :
    findVal (run 1000 1000 (4/10) detsC3 recogC3).data "extra" = none ∧
    findVal (run 1000 1000 (4/10) detsC3 recogC3).yolo_confidence "extra" = none ∧
    findVal (run 1000 1000 (4/10) detsC3 recogC3).ocr_confidence "extra" = none ∧
    (findVal (processFields (fun b => predict_with_confidence (recogC3 b))
        (collectBoxes 1000 1000 (4/10) detsC3)) "extra").map FieldEntry.text =
      some "hello" ∧
    (findVal (processFields (fun b => predict_with_confidence (recogC3 b))
        (collectBoxes 1000 1000 (4/10) detsC3)) "extra").map FieldEntry.conf =
      some (9/10) := by
  refine ⟨?_, ?_, ?_, ?_, ?_⟩ <;> with_unfolding_all decide

/-- C3 (amended): every encountered label — including out-of-schema ones —
gets an entry in the internal field maps (so it is processed rather than
dropped during extraction), and every schema field is always present in the
produced payload even when empty; but the payload's three sections list
exactly the schema fields, so out-of-schema labels do not appear in the
produced result. -/
theorem C3_extraLabels_amended (width height : ℤ) (thr : ℚ)
    (dets : List FieldDet) (recognize : BBoxI → RecogOutcome) :
    (run width height thr dets recognize).data.map Prod.fst = DESIRED_FIELDS ∧
    (run width height thr dets recognize).yolo_confidence.map Prod.fst =
      DESIRED_FIELDS ∧
    (run width height thr dets recognize).ocr_confidence.map Prod.fst =
      DESIRED_FIELDS ∧
    ∀ d ∈ dets, (findVal (collectBoxes width height thr dets) d.label).isSome := by
  refine ⟨?_, ?_, ?_, ?_⟩
  · exact map_fst_map_pair DESIRED_FIELDS _
  · exact map_fst_map_pair DESIRED_FIELDS _
  · exact map_fst_map_pair DESIRED_FIELDS _
  · intro d hd
    exact collectBoxes_fold_isSome width height thr dets initFields d.label
      (Or.inr ⟨d, hd, rfl⟩)

/-- C3 witness: the amended theorem instantiated on the concrete
out-of-schema detection. -/
theorem C3_extraLabels_amended_witness :
    (run 1000 1000 (4/10) detsC3 recogC3).data.map Prod.fst = DESIRED_FIELDS ∧
    (findVal (collectBoxes 1000 1000 (4/10) detsC3) "extra").isSome :=
  ⟨(C3_extraLabels_amended 1000 1000 (4/10) detsC3 recogC3).1,
   (C3_extraLabels_amended 1000 1000 (4/10) detsC3 recogC3).2.2.2
     ⟨"extra", 9/10, ⟨10, 10, 50, 30⟩⟩ (by simp [detsC3])⟩

/-- C4 counterexample: for the multi-line field "name" both detections
(scores 0.5 and 0.9) are retained, but the 0.9 box recognizes to an empty
text, so the code reports detection-confidence 0.5 — not the mean 0.7 over
all retained boxes that the claim states. -/
theorem C4_detectionConf_not_mean_over_retained :
    (findVal (collectBoxes 1000 1000 (4/10) detsC4) "name").map
        (fun e => e.bboxes.length) = some 2 ∧
    findVal (run 1000 1000 (4/10) detsC4 recogC4).yolo_confidence "name" =
      some (5/10) ∧
    (5/10 : ℚ) ≠ (5/10 + 9/10) / 2 := by
  refine ⟨?_, ?_, ?_⟩ <;> with_unfolding_all decide

/-- C4 (amended): for every multi-line field with at least one retained box
whose recognized text is non-empty, the detection-confidence equals the
mean of the detection scores over exactly those boxes (retained boxes with
non-empty recognized text), and the recognition-confidence equals the mean
of the per-box recognition confidences over the same boxes.  (The claim
took the detection-confidence mean over all retained boxes; boxes whose
recognition comes back empty are excluded from both means.) -/
theorem C4_aggregation_amended (predict : BBoxI → String × ℚ) (label : String)
    (items : List (BBoxI × ℚ)) (t : String) (c o : ℚ)
    (hlabel : label ∈ MULTILINE_FIELDS)
    (hcontrib : contributing predict items ≠ []) :
    (processEntry predict label ⟨items, t, c, o⟩).conf =
      ((contributing predict items).map Prod.snd).sum /
        ((contributing predict items).length : ℚ) ∧
    (processEntry predict label ⟨items, t, c, o⟩).ocr_conf =
      ((contributing predict items).map (fun it => (predict it.1).2)).sum /
        ((contributing predict items).length : ℚ) := by
  have hitems : items ≠ [] := by
    intro h
    apply hcontrib
    rw [contributing, h]
    rfl
  have hfilter : (sortedByTop items).filter (fun it => (predict it.1).1 ≠ "") ≠ [] := by
    simp only [contributing] at hcontrib
    exact hcontrib
  have hconds : label ∈ MULTILINE_FIELDS ∧
      ((sortedByTop items).filter fun it => (predict it.1).1 ≠ "").map Prod.snd ≠ [] := by
    refine ⟨hlabel, ?_⟩
    simp only [ne_eq, List.map_eq_nil_iff]
    exact hfilter
  simp only [processEntry, appendRecog_foldl, List.nil_append]
  rw [if_neg hitems, if_pos hconds]
  constructor
  · simp [contributing]
  · simp [contributing]

/-- C4 witness: the amended aggregation evaluated on the concrete two-box
example; only the box that read "A" contributes, so both means are over a
single box. -/
theorem C4_aggregation_amended_witness :
    (processEntry predictC4 "name" ⟨itemsC4, "", 0, 0⟩).conf = 5/10 ∧
    (processEntry predictC4 "name" ⟨itemsC4, "", 0, 0⟩).ocr_conf = 8/10 :=
  ⟨((C4_aggregation_amended predictC4 "name" itemsC4 "" 0 0
      (by decide) (by with_unfolding_all decide)).1).trans
      (by with_unfolding_all decide),
   ((C4_aggregation_amended predictC4 "name" itemsC4 "" 0 0
      (by decide) (by with_unfolding_all decide)).2).trans
      (by with_unfolding_all decide)⟩

/-- C7 counterexample: two retained "name" boxes whose padded boxes share
the top-edge coordinate `y1 = 0`.  The sort by top edge is stable, so the
merged text follows the input detection order: the two input orders of the
same two detections yield "A B" and "B A" — the merge is not invariant
under permutation of the detection order, contrary to the claim. -/
theorem C7_merge_not_permutation_invariant :
    detsC7swapped.Perm detsC7 ∧
    findVal (run 1000 1000 (4/10) detsC7 recogC7).data "name" = some "A B" ∧
    findVal (run 1000 1000 (4/10) detsC7swapped recogC7).data "name" =
      some "B A" ∧
    ("A B" : String) ≠ "B A" := by
  refine ⟨?_, ?_, ?_, ?_⟩ <;> with_unfolding_all decide

/-- C7 (amended): for every multi-line field the merged text is the
space-separated concatenation of the per-box recognized texts in ascending
top-edge order with empty outputs omitted, and it is invariant under
permutation of the input detection order **provided the retained boxes'
top-edge y-coordinates are pairwise distinct** (on ties the stable sort
keeps the input order, so permutation invariance can fail); in particular
boxes at y=50 and y=10 merge as "T10 T50" regardless of which was detected
first. -/
theorem C7_merge_amended :
    (∀ (predict : BBoxI → String × ℚ) (label t : String) (c o : ℚ)
        (l1 l2 : List (BBoxI × ℚ)),
      l1.Perm l2 →
      (l1.map fun it => it.1.y1).Pairwise (fun a b => a ≠ b) →
      (processEntry predict label ⟨l1, t, c, o⟩).text =
        (processEntry predict label ⟨l2, t, c, o⟩).text) ∧
    (processEntry predictC7ex "name"
        ⟨[(⟨0, 50, 100, 70⟩, 1/2), (⟨0, 10, 100, 30⟩, 1/2)], "", 0, 0⟩).text =
      "T10 T50" ∧
    (processEntry predictC7ex "name"
        ⟨[(⟨0, 10, 100, 30⟩, 1/2), (⟨0, 50, 100, 70⟩, 1/2)], "", 0, 0⟩).text =
      "T10 T50" := by
  refine ⟨?_, by with_unfolding_all decide, by with_unfolding_all decide⟩
  intro predict label t c o l1 l2 hp hd
  have hsorted : sortedByTop l1 = sortedByTop l2 :=
    sortedByTop_eq_of_perm_of_distinct l1 l2 hp hd
  by_cases h1 : l1 = []
  · subst h1
    have h2 : l2 = [] := hp.symm.eq_nil
    subst h2
    rfl
  · have h2 : l2 ≠ [] := fun h => h1 (by rw [h] at hp; exact hp.eq_nil)
    simp only [processEntry]
    rw [if_neg h1, if_neg h2, hsorted]
    split_ifs <;> rfl

/-- C7 witness: permutation invariance instantiated on two boxes with
distinct top edges, given in the two possible input orders. -/
theorem C7_merge_amended_witness :
    (processEntry predictC7ex "name"
        ⟨[(⟨0, 50, 100, 70⟩, 1/2), (⟨0, 10, 100, 30⟩, 1/2)], "", 0, 0⟩).text =
      (processEntry predictC7ex "name"
        ⟨[(⟨0, 10, 100, 30⟩, 1/2), (⟨0, 50, 100, 70⟩, 1/2)], "", 0, 0⟩).text :=
  C7_merge_amended.1 predictC7ex "name" "" 0 0
    [(⟨0, 50, 100, 70⟩, 1/2), (⟨0, 10, 100, 30⟩, 1/2)]
    [(⟨0, 10, 100, 30⟩, 1/2), (⟨0, 50, 100, 70⟩, 1/2)]
    (by with_unfolding_all decide) (by with_unfolding_all decide)

/-- C5: if fewer than 3 corner detections pass the confidence threshold,
the post-detection stage of `crop_cccd` returns "no result" (`.ok none`):
no exception is raised and no partial rectified output is produced.
Moreover the stage never raises at all (every input yields some `.ok`
result), so the corner-count gate is its single hard failure. -/
theorem C5_insufficient_corners_no_result (dets : List CornerDet)
    (conf_thres expand imgW imgH : ℚ) :
    (∃ r, crop_core dets conf_thres expand imgW imgH = .ok r) ∧
    ((dets.filter (passesAsCorner conf_thres)).length < 3 →
      crop_core dets conf_thres expand imgW imgH = .ok none) := by
  constructor
  · simp only [crop_core]
    by_cases hlt : (detect_points dets conf_thres).2.length < 3
    · rw [if_pos hlt]
      exact ⟨none, rfl⟩
    · rw [if_neg hlt]
      have hle : (detect_points dets conf_thres).2.length ≤ 4 :=
        detect_points_corners_le_four dets conf_thres
      by_cases h3 : (detect_points dets conf_thres).2.length = 3
      · rw [if_pos h3]
        match (detect_points dets conf_thres).2, h3 with
        | [p0, p1, p2], _ => exact ⟨some _, rfl⟩
      · rw [if_neg h3]
        have h4 : (detect_points dets conf_thres).2.length = 4 := by omega
        match (detect_points dets conf_thres).2, h4 with
        | [p0, p1, p2, p3], _ => exact ⟨some _, rfl⟩
  · intro hcount
    have hlen : (detect_points dets conf_thres).2.length < 3 := by
      rw [detect_points_corners_length dets conf_thres (by omega)]
      exact hcount
    simp only [crop_core]
    rw [if_pos hlen]

/-- C6: for every three corner points, the synthesized 4th corner equals
`pts[i] + pts[j] - pts[k]` where `(i, j)` is a pair of maximal pairwise
distance among the three and `k` the remaining index; and concretely, from
corners `(0,0)`, `(10,0)`, `(10,5)` the completed corner is `(0,5)`
(exactly — rationals carry no floating error). -/
theorem C6_parallelogram_completion :
    (∀ p0 p1 p2 : Pt, ∃ i j k : Fin 3, i ≠ j ∧ k ≠ i ∧ k ≠ j ∧
      (∀ a b : Fin 3, dist2 (tri p0 p1 p2 a) (tri p0 p1 p2 b) ≤
          dist2 (tri p0 p1 p2 i) (tri p0 p1 p2 j)) ∧
      complete4th p0 p1 p2 =
        ((tri p0 p1 p2 i).1 + (tri p0 p1 p2 j).1 - (tri p0 p1 p2 k).1,
         (tri p0 p1 p2 i).2 + (tri p0 p1 p2 j).2 - (tri p0 p1 p2 k).2)) ∧
    complete4th (0, 0) (10, 0) (10, 5) = (0, 5) := by
  refine ⟨?_, by with_unfolding_all decide⟩
  intro p0 p1 p2
  have hmax : ∀ (i j : Fin 3), dist2 p0 p1 ≤ dist2 (tri p0 p1 p2 i) (tri p0 p1 p2 j) →
      dist2 p0 p2 ≤ dist2 (tri p0 p1 p2 i) (tri p0 p1 p2 j) →
      dist2 p1 p2 ≤ dist2 (tri p0 p1 p2 i) (tri p0 p1 p2 j) →
      ∀ a b : Fin 3, dist2 (tri p0 p1 p2 a) (tri p0 p1 p2 b) ≤
        dist2 (tri p0 p1 p2 i) (tri p0 p1 p2 j) := by
    intro i j h1 h2 h3 a b
    rcases tri_cases p0 p1 p2 a with ha | ha | ha <;>
      rcases tri_cases p0 p1 p2 b with hb | hb | hb <;>
      rw [ha, hb] <;>
      first
        | (rw [dist2_self]
           exact le_trans (dist2_nonneg p0 p1) h1)
        | exact h1
        | exact h2
        | exact h3
        | (rw [dist2_comm]
           first
             | exact h1
             | exact h2
             | exact h3)
  simp only [complete4th, longestPair]
  by_cases hA : dist2 p0 p1 < dist2 p0 p2
  · rw [if_pos hA]
    dsimp only
    by_cases hB : dist2 p0 p2 < dist2 p1 p2
    · rw [if_pos hB]
      refine ⟨1, 2, thirdIdx 1 2, by decide, by decide, by decide,
        hmax 1 2 (le_of_lt (lt_trans hA hB)) (le_of_lt hB) (le_refl _), rfl⟩
    · rw [if_neg hB]
      refine ⟨0, 2, thirdIdx 0 2, by decide, by decide, by decide,
        hmax 0 2 (le_of_lt hA) (le_refl _) (not_lt.mp hB), rfl⟩
  · rw [if_neg hA]
    dsimp only
    by_cases hB : dist2 p0 p1 < dist2 p1 p2
    · rw [if_pos hB]
      refine ⟨1, 2, thirdIdx 1 2, by decide, by decide, by decide,
        hmax 1 2 (le_of_lt hB) (le_trans (not_lt.mp hA) (le_of_lt hB))
          (le_refl _), rfl⟩
    · rw [if_neg hB]
      refine ⟨0, 1, thirdIdx 0 1, by decide, by decide, by decide,
        hmax 0 1 (le_refl _) (not_lt.mp hA) (not_lt.mp hB), rfl⟩

/-- C6 witness: the completion property instantiated on the rectangle
corners `(0,0)`, `(10,0)`, `(10,5)`. -/
theorem C6_parallelogram_completion_witness :
    ∃ i j k : Fin 3, i ≠ j ∧ k ≠ i ∧ k ≠ j ∧
      (∀ a b : Fin 3,
        dist2 (tri (0, 0) (10, 0) (10, 5) a) (tri (0, 0) (10, 0) (10, 5) b) ≤
          dist2 (tri (0, 0) (10, 0) (10, 5) i) (tri (0, 0) (10, 0) (10, 5) j)) ∧
      complete4th (0, 0) (10, 0) (10, 5) =
        ((tri (0, 0) (10, 0) (10, 5) i).1 + (tri (0, 0) (10, 0) (10, 5) j).1 -
            (tri (0, 0) (10, 0) (10, 5) k).1,
         (tri (0, 0) (10, 0) (10, 5) i).2 + (tri (0, 0) (10, 0) (10, 5) j).2 -
            (tri (0, 0) (10, 0) (10, 5) k).2) :=
  C6_parallelogram_completion.1 (0, 0) (10, 0) (10, 5)

/-- C9: the residual top-edge deskew inside `crop_cccd` is the identity on
every warped image (of width at least 1 pixel): the angle is computed from
the hardcoded post-warp corners `(0,0)` and `(w-1, 0)`, so it is always 0,
never exceeds the 0.3-degree epsilon, and the rotation branch is never
taken. -/
theorem C9_residual_deskew_identity {α : Type} (rotate : ℚ → α → α)
    (w : ℕ) (hw : 1 ≤ w) (img : α) :
    deskewAngle w = 0 ∧ ¬ (3/10 < |deskewAngle w|) ∧
    deskewTopEdgeStep rotate w img = img := by
  have h0 : deskewAngle w = 0 := by
    unfold deskewAngle
    rw [if_neg (by omega)]
  refine ⟨h0, ?_, ?_⟩
  · rw [h0]
    norm_num
  · unfold deskewTopEdgeStep
    rw [h0]
    norm_num

/-- C9 witness: the deskew step on a width-5 image, with a rotation
function that would visibly change the image if it were ever applied. -/
theorem C9_residual_deskew_identity_witness :
    deskewAngle 5 = 0 ∧ ¬ (3/10 < |deskewAngle 5|) ∧
    deskewTopEdgeStep (fun _ n => n + 1) 5 (0 : ℕ) = 0 :=
  C9_residual_deskew_identity (fun _ n => n + 1) 5 (by norm_num) 0

/-- C10: whenever none of the 0°, 90°-CW and 180° candidates places the
projected landmark in the top-left quadrant, orientation normalization
returns the 270°-CW rotation unconditionally — its own quadrant test,
which would be `quadrant y (w-x) h w`, is never consulted (the third
conjunct shows an input where that test is false and the 270° rotation is
returned nevertheless, see the witness); and with no landmark the image is
returned unchanged. -/
theorem C10_orientation_fallback :
    (∀ (α : Type) (rot90cw rot180 rot270cw : α → α) (image : α)
        (w h x y : ℚ),
      quadrant x y w h = false → quadrant (h - y) x h w = false →
      quadrant (w - x) (h - y) w h = false →
      rotate_to_place_point_top_left rot90cw rot180 rot270cw image w h
          (some (x, y)) = rot270cw image) ∧
    (∀ (α : Type) (rot90cw rot180 rot270cw : α → α) (image : α) (w h : ℚ),
      rotate_to_place_point_top_left rot90cw rot180 rot270cw image w h
          none = image) ∧
    quadrant 5 (10 - 5) 10 10 = false := by
  refine ⟨?_, ?_, by with_unfolding_all decide⟩
  · intro α rot90cw rot180 rot270cw image w h x y h1 h2 h3
    simp only [rotate_to_place_point_top_left, h1, h2, h3,
      Bool.false_eq_true, if_false]
  · intro α rot90cw rot180 rot270cw image w h
    rfl

/-- C10 witness: at the exact image center `(5,5)` of a 10 by 10 frame,
none of the four quadrant tests holds — including the never-consulted
270° test, which is the second conjunct — yet the 270°-CW rotation is
returned. -/
theorem C10_orientation_fallback_witness :
    rotate_to_place_point_top_left (fun n => n + 1) (fun n => n + 2)
        (fun n => n + 3) (0 : ℕ) 10 10 (some (5, 5)) = 3 ∧
    quadrant 5 (10 - 5) 10 10 = false :=
  ⟨C10_orientation_fallback.1 ℕ (fun n => n + 1) (fun n => n + 2)
      (fun n => n + 3) 0 10 10 5 5
      (by with_unfolding_all decide) (by with_unfolding_all decide)
      (by with_unfolding_all decide),
   C10_orientation_fallback.2.2⟩

/-- C5 witness: two passing corner detections yield `.ok none`. -/
theorem C5_insufficient_corners_no_result_witness :
    crop_core [⟨"tren-trai", 9/10, ⟨0, 0, 2, 2⟩⟩,
               ⟨"tren-phai", 9/10, ⟨100, 0, 102, 2⟩⟩]
      (3/10) (6/100) 200 200 = .ok none :=
  (C5_insufficient_corners_no_result
      [⟨"tren-trai", 9/10, ⟨0, 0, 2, 2⟩⟩, ⟨"tren-phai", 9/10, ⟨100, 0, 102, 2⟩⟩]
      (3/10) (6/100) 200 200).2 (by with_unfolding_all decide)

/-- C8: a recognition call that throws (or returns nothing) is recovered
locally by `predict_with_confidence` as the empty text with confidence 0.0,
and the whole extraction proceeds exactly as if that call had succeeded
with `("", 0.0)`: the payload is still produced, with every other box and
field processed identically.  (`recover` rewrites exactly the
throwing/`None` outcomes of the oracle to that explicit success.) -/
theorem C8_recognition_failure_recovered (width height : ℤ) (thr : ℚ)
    (dets : List FieldDet) (recognize : BBoxI → RecogOutcome) :
    predict_with_confidence .throws = ("", 0) ∧
    predict_with_confidence .nothing = ("", 0) ∧
    run width height thr dets recognize =
      run width height thr dets (fun b => recover (recognize b)) := by
  refine ⟨rfl, rfl, ?_⟩
  have hk : (fun b => predict_with_confidence (recognize b)) =
      (fun b => predict_with_confidence (recover (recognize b))) := by
    funext b
    cases recognize b <;> rfl
  simp only [run]
  rw [hk]
